import Mathlib

/-!
Verification of the energy-tool ETL pipeline and its dashboard consumer.

The development shallowly embeds the data-cleaning pipeline of
`data_pipeline.py` (`clean_numeric`, `excel_date_converter`, the body of
`clean_iea_data` from the point where the header has been flattened) and the
consumer operations of `app.py` (`load_and_process_data`'s fill step,
`apply_filters`, `sort_data`, and the pagination arithmetic of `main`).

Modelling conventions:
* pandas cells are an inductive `Cell`: `nan` is the float NaN that pandas
  uses for missing data, `pyNone` is the Python `None` object, `text` is a
  Python `str`, `intVal` a nonnegative integer cell, `floatVal` a finite
  float (represented exactly as a rational; float32 rounding is not
  modelled), and `date d` a `str` cell that is the ISO rendering of the
  calendar date `d`.
* a DataFrame is a list of rows, each row a list of (column name, cell)
  pairs; every row carries the flattened column names.
* Python exceptions that a function catches internally are modelled by the
  value the handler returns; logging is not modelled.
-/

namespace EnergyTool

/-- Proleptic Gregorian calendar date, as used by Python `datetime.date`. -/
structure Date where
  year : Nat
  month : Nat
  day : Nat
deriving DecidableEq, Repr

/-- Gregorian leap-year rule (Python `calendar.isleap`). -/
def isLeap (y : Nat) : Bool :=
  y % 4 == 0 && (y % 100 != 0 || y % 400 == 0)

/-- Number of days in month `m` of year `y` (months `1`..`12`). -/
def monthLength (y m : Nat) : Nat :=
  if m = 2 then (if isLeap y then 29 else 28)
  else if m = 4 ∨ m = 6 ∨ m = 9 ∨ m = 11 then 30
  else 31

/-- Number of days in year `y`. -/
def daysInYear (y : Nat) : Nat :=
  if isLeap y then 366 else 365

/-- Days in the months of year `y` strictly before month `m`
(CPython `datetime._days_before_month`). -/
def daysBeforeMonth (y : Nat) : Nat → Nat
  | 0 => 0
  | m + 1 => daysBeforeMonth y m + if m = 0 then 0 else monthLength y m

/-- Total number of days in the years `1`..`y-1`
(CPython `datetime._days_before_year`). -/
def daysBeforeYear (y : Nat) : Nat :=
  365 * (y - 1) + (y - 1) / 4 - (y - 1) / 100 + (y - 1) / 400

/-- Proleptic Gregorian ordinal of a date, with `0001-01-01` ↦ `1`
(CPython `datetime.date.toordinal`). -/
def toOrdinal (d : Date) : Nat :=
  daysBeforeYear d.year + daysBeforeMonth d.year d.month + d.day

/-- A structurally valid calendar date. -/
def ValidDate (d : Date) : Prop :=
  1 ≤ d.year ∧ 1 ≤ d.month ∧ d.month ≤ 12 ∧ 1 ≤ d.day ∧
    d.day ≤ monthLength d.year d.month

instance (d : Date) : Decidable (ValidDate d) := by
  unfold ValidDate; infer_instance

/-- Calendar successor of a date. -/
def nextDay (d : Date) : Date :=
  if d.day < monthLength d.year d.month then ⟨d.year, d.month, d.day + 1⟩
  else if d.month < 12 then ⟨d.year, d.month + 1, 1⟩
  else ⟨d.year + 1, 1, 1⟩

/-- The date `n` days after `d`.  This embeds Python
`datetime + pd.DateOffset(days=n)` for a nonnegative integer `n`: datetime
day addition is, semantically, `n`-fold calendar succession. -/
def addDays (d : Date) : Nat → Date
  | 0 => d
  | n + 1 => addDays (nextDay d) n

/-- Epoch of the legacy Excel serial-date system used at
`data_pipeline.py:48`. -/
def excelEpoch : Date := ⟨1899, 12, 30⟩

/-- Ordinal of the last calendar day representable by a midnight
`pandas.Timestamp` (`Timestamp.max` is `2262-04-11T23:47:16`; any later
date overflows and `pd.DateOffset` addition raises). -/
def tsMaxOrd : Nat := toOrdinal ⟨2262, 4, 11⟩

/-- Ordinal of the first calendar day whose midnight is representable by a
`pandas.Timestamp` (`Timestamp.min` is `1677-09-21T00:12:43`, so the first
representable midnight is `1677-09-22`). -/
def tsMinOrd : Nat := toOrdinal ⟨1677, 9, 22⟩

/-- Left-pad the decimal rendering of `n` with zeros to width `w`. -/
def padNum (w n : Nat) : String :=
  let s := toString n
  String.mk (List.replicate (w - s.length) '0') ++ s

/-- ISO `YYYY-MM-DD` rendering of a date (Python `strftime('%Y-%m-%d')`). -/
def isoDateStr (d : Date) : String :=
  padNum 4 d.year ++ "-" ++ padNum 2 d.month ++ "-" ++ padNum 2 d.day

/-- Digit characters folded into a natural number. -/
def digitsToNat (cs : List Char) : Nat :=
  cs.foldl (fun a c => 10 * a + (c.toNat - '0'.toNat)) 0

/-- Parse of a strict ISO date string, embedding
`pd.to_datetime(s, format='%Y-%m-%d', errors='coerce')`
(`data_pipeline.py:51`): `%Y` matches exactly four digits, `%m` and `%d`
one or two digits; the parsed triple must be a real calendar date and lie
inside the representable `pandas.Timestamp` range, otherwise the result is
`NaT` (modelled as `none`). -/
def parseIso (s : String) : Option Date :=
  match s.toList.splitOn '-' with
  | [ys, ms, ds] =>
    if ys.length = 4 && ys.all Char.isDigit &&
        decide (1 ≤ ms.length) && decide (ms.length ≤ 2) && ms.all Char.isDigit &&
        decide (1 ≤ ds.length) && decide (ds.length ≤ 2) && ds.all Char.isDigit then
      let d : Date := ⟨digitsToNat ys, digitsToNat ms, digitsToNat ds⟩
      if decide (ValidDate d) && decide (tsMinOrd ≤ toOrdinal d) &&
          decide (toOrdinal d ≤ tsMaxOrd) then
        some d
      else none
    else none
  | _ => none

/-- Value of one pandas cell, as read from Excel or produced by cleaning. -/
inductive Cell where
  /-- float NaN: pandas' marker for missing data. -/
  | nan : Cell
  /-- the Python `None` object. -/
  | pyNone : Cell
  /-- a `str` cell. -/
  | text (s : String) : Cell
  /-- a nonnegative integer cell, e.g. a raw Excel date serial. -/
  | intVal (n : Nat) : Cell
  /-- a finite float cell, represented exactly. -/
  | floatVal (q : ℚ) : Cell
  /-- a `str` cell that is the ISO rendering of calendar date `d`. -/
  | date (d : Date) : Cell
deriving DecidableEq, Repr

/-- Python `str(value)` for a cell: `str(nan) = "nan"`,
`str(None) = "None"`, integers and floats render in decimal.  (The
`floatVal` rendering approximates Python float `repr` for integral values;
no cleaned float is ever fed back through `str` in the pipeline.) -/
def cellStr : Cell → String
  | .nan => "nan"
  | .pyNone => "None"
  | .text s => s
  | .intVal n => toString n
  | .floatVal q => if q.den = 1 then toString q.num ++ ".0" else toString q
  | .date d => isoDateStr d

/-- Python `float()` restricted to strings of digits and periods: at most
one period and at least one digit, else `ValueError` (modelled as `none`).
The value is represented exactly as a rational. -/
def parseFloat (cs : List Char) : Option ℚ :=
  match cs.splitOn '.' with
  | [ds] => if ds.isEmpty then none else some (digitsToNat ds : ℚ)
  | [ds, fs] =>
    if ds.isEmpty && fs.isEmpty then none
    else some ((digitsToNat ds : ℚ) + (digitsToNat fs : ℚ) / 10 ^ fs.length)
  | _ => none

/-- Embedding of `clean_numeric` (`data_pipeline.py:30`): strip every
character that is not an ASCII digit or a period, parse the remainder as a
float; on failure return NaN (modelled as `none`). -/
def cleanNumeric (s : String) : Option ℚ :=
  parseFloat (s.toList.filter fun c => c.isDigit || c == '.')

/-- `clean_numeric` applied to a cell: the argument is first rendered with
`str(value)`; a parse failure yields `np.nan`. -/
def cleanNumericCell (c : Cell) : Cell :=
  match cleanNumeric (cellStr c) with
  | some q => .floatVal q
  | none => .nan

/-- Embedding of `excel_date_converter` (`data_pipeline.py:41`).
A numeric cell goes through `datetime(1899,12,30) + pd.DateOffset(days=v)`,
which yields a `pandas.Timestamp` and therefore raises `OutOfBoundsDatetime`
(caught, giving `None`) whenever the target date falls outside the
`Timestamp` range; a float-typed cell (only NaN, or the output of a prior
numeric-cleaning pass, can occur there in the pipeline) makes the
`DateOffset` arithmetic raise, giving `None`; a string cell is parsed with
`pd.to_datetime(..., format='%Y-%m-%d', errors='coerce')`, and
`NaT.strftime` raises on failure, giving `None`. -/
def excelDateConverter : Cell → Cell
  | .intVal n =>
    if toOrdinal excelEpoch + n ≤ tsMaxOrd then .date (addDays excelEpoch n)
    else .pyNone
  | .floatVal _ => .pyNone
  | .nan => .pyNone
  | .pyNone => .pyNone
  | .text s =>
    match parseIso s with
    | some d => .date d
    | none => .pyNone
  | .date d =>
    match parseIso (isoDateStr d) with
    | some d' => .date d'
    | none => .pyNone

/-! ## The cleaning pipeline (`clean_iea_data`, lines 79-100)

The embedding starts from the table obtained after the two-row header has
been flattened and the `Unnamed` columns dropped (lines 74-75): a list of
rows, each row a list of `(column name, cell)` pairs. -/

/-- One row of the table: flattened column names paired with cells. -/
abbrev Row := List (String × Cell)

/-- Name of the identifier column. -/
def refCol : String := "DATABASE_Ref"

/-- Cell of `row` at the column `name` (first occurrence). -/
def getCell (row : Row) (name : String) : Option Cell :=
  (row.find? fun nc => nc.1 == name).map (·.2)

/-- Is this cell missing in the pandas sense (`NaN` or `None`)? -/
def isMissingCell : Cell → Bool
  | .nan => true
  | .pyNone => true
  | _ => false

/-- pandas `Series.astype(str)` on one cell: every value is rendered with
`str`, so `NaN` becomes the string `"nan"` and `None` the string `"None"`;
a cell that is already a string (including an ISO date string) is
unchanged. -/
def astypeStrCell : Cell → Cell
  | .date d => .date d
  | c => .text (cellStr c)

/-- The characters of a string, lowercased (Python `s.lower()`). -/
def lowerChars (s : String) : List Char :=
  s.toList.map Char.toLower

/-- Substring test on character lists (Python `pat in s`). -/
def hasSubstr (s pat : List Char) : Bool :=
  s.tails.any fun suf => pat.isPrefixOf suf

/-- Column selected for numeric cleaning (`data_pipeline.py:84`):
the name contains `"capacity"` or `"size"`, case-insensitively. -/
def isNumericCol (name : String) : Bool :=
  hasSubstr (lowerChars name) "capacity".toList ||
    hasSubstr (lowerChars name) "size".toList

/-- Column selected for date conversion (`data_pipeline.py:89`):
the name contains `"date"`, case-insensitively. -/
def isDateCol (name : String) : Bool :=
  hasSubstr (lowerChars name) "date".toList

/-- Apply `f` to every cell of every column whose name satisfies `p`. -/
def mapCol (p : String → Bool) (f : Cell → Cell) (rows : List Row) : List Row :=
  rows.map fun row => row.map fun nc => if p nc.1 then (nc.1, f nc.2) else nc

/-- `df.dropna(subset=['DATABASE_Ref'])` (`data_pipeline.py:81`): keep the
rows whose identifier cell is present and not missing. -/
def dropnaRef (rows : List Row) : List Row :=
  rows.filter fun row =>
    match getCell row refCol with
    | some c => !isMissingCell c
    | none => false

/-- Key used for deduplication: the identifier cell of the row. -/
def refKey (row : Row) : Option Cell := getCell row refCol

/-- Keep-first deduplication with an accumulator of already seen keys
(`df.drop_duplicates('DATABASE_Ref', keep='first')`). -/
def keepFirstBy (key : Row → Option Cell) :
    List Row → List (Option Cell) → List Row
  | [], _ => []
  | r :: rs, seen =>
    if key r ∈ seen then keepFirstBy key rs seen
    else r :: keepFirstBy key rs (key r :: seen)

/-- Lines 93-96: duplicates are removed only when
`df['DATABASE_Ref'].duplicated().any()` reports some; keep-first policy. -/
def dropDuplicatesRef (rows : List Row) : List Row :=
  if (rows.map refKey).Nodup then rows else keepFirstBy refKey rows []

/-- Does any cell under this column name make the column `object`-typed in
pandas?  Strings (including date strings) and `None` force `object` dtype;
an all-float or all-missing column stays a float column. -/
def isObjLike : Cell → Bool
  | .text _ => true
  | .pyNone => true
  | .date _ => true
  | _ => false

/-- Column `name` has pandas dtype `object` in the table `rows`. -/
def colIsObject (rows : List Row) (name : String) : Bool :=
  rows.any fun row => row.any fun nc => nc.1 == name && isObjLike nc.2

/-- Lines 98-100: `df[col] = df[col].astype(str)` for every `object`-typed
column, which in particular turns `NaN` into the string `"nan"` and `None`
into the string `"None"`. -/
def astypeObjectCols (rows : List Row) : List Row :=
  mapCol (fun n => colIsObject rows n) astypeStrCell rows

/-- Embedding of the cleaning body of `clean_iea_data`
(`data_pipeline.py:79-100`), applied to the header-flattened table:
1. line 80: `df['DATABASE_Ref'] = df['DATABASE_Ref'].astype(str)`;
2. line 81: `df = df.dropna(subset=['DATABASE_Ref'])`;
3. lines 84-86: numeric keyword columns through `clean_numeric`
   (the `astype('float32')` narrowing is not modelled);
4. lines 89-91: date keyword columns through `excel_date_converter`;
5. lines 93-96: keep-first deduplication on the identifier;
6. lines 98-100: `astype(str)` on the `object`-typed columns. -/
def cleanIeaData (rows : List Row) : List Row :=
  let r1 := mapCol (· == refCol) astypeStrCell rows
  let r2 := dropnaRef r1
  let r3 := mapCol isNumericCol cleanNumericCell r2
  let r4 := mapCol isDateCol excelDateConverter r3
  let r5 := dropDuplicatesRef r4
  astypeObjectCols r5

/-! ## The dashboard consumer (`app.py`) -/

/-- `df[col].fillna("N/A")` on one cell (`app.py:116`): only genuinely
missing values (`NaN`/`None`) are replaced; any string, in particular the
string `"nan"`, is left as it is. -/
def fillnaNA (c : Cell) : Cell :=
  if isMissingCell c then .text "N/A" else c

/-- One dashboard record after `load_and_process_data`'s renaming: the four
text fields are strings and the online date is a timestamp or `NaT`
(modelled as its ordinal, or `none`). -/
structure PRecord where
  project_name : String
  country : String
  status : String
  technology : String
  date_online : Option Int
deriving DecidableEq, Repr

/-- Characters that are special in a Python regular expression. -/
def reSpecials : List Char :=
  ['.', '^', '$', '*', '+', '?', '{', '}', '[', ']', '(', ')', '|', '\\']

/-- Does the pattern stay inside the modelled regex fragment: literal
characters plus the metacharacter `'.'`? -/
def inRxFragment (pat : String) : Bool :=
  pat.toList.all fun c => c == '.' || !reSpecials.contains c

/-- One pattern token against one subject character, with `re.IGNORECASE`:
`'.'` matches any character, a literal matches up to case. -/
def rxTokenMatch (t c : Char) : Bool :=
  t == '.' || t.toLower == c.toLower

/-- The pattern tokens match a prefix of the subject, pointwise. -/
def rxMatchHere : List Char → List Char → Bool
  | [], _ => true
  | _ :: _, [] => false
  | t :: ts, c :: cs => rxTokenMatch t c && rxMatchHere ts cs

/-- Embedding of `Series.str.contains(pat, case=False, na=False)`
(`app.py:146-147`).  pandas interprets `pat` as a regular expression
(`regex=True` is the default) and searches it, unanchored and
case-insensitively, in the subject.  The model covers the fragment of
patterns built from literal characters and the metacharacter `'.'`;
patterns using other regex syntax are outside the model (no claim depends
on them). -/
def strContainsPy (pat s : String) : Bool :=
  if inRxFragment pat then s.toList.tails.any fun suf => rxMatchHere pat.toList suf
  else false

/-- Case-insensitive literal substring containment: what the specification
means by "contains the query as a case-insensitive substring". -/
def literalSubstrCI (pat s : String) : Bool :=
  hasSubstr (lowerChars s) (lowerChars pat)

/-- A multi-value filter: the field accessor together with the selected
values (`df[df[field].isin(values)]`). -/
abbrev FieldFilter := (PRecord → String) × List String

/-- Embedding of `apply_filters` (`app.py:142-153`): first the optional
search over name and country, then each non-empty multi-value filter in
order. -/
def applyFilters (df : List PRecord) (searchQuery : String)
    (filters : List FieldFilter) : List PRecord :=
  let df :=
    if searchQuery == "" then df
    else df.filter fun r =>
      strContainsPy searchQuery r.project_name || strContainsPy searchQuery r.country
  filters.foldl
    (fun acc fv =>
      if fv.2.isEmpty then acc
      else acc.filter fun r => fv.2.contains (fv.1 r))
    df

/-- Sort key of a record: its online date, with `NaT` below every date so
that descending order puts it last. -/
def dateKey (r : PRecord) : WithBot Int :=
  match r.date_online with
  | none => ⊥
  | some d => (d : WithBot Int)

/-- Comparison used by `sort_data`: descending online date. -/
def dateDesc (a b : PRecord) : Prop := dateKey b ≤ dateKey a

instance : DecidableRel dateDesc := fun a b =>
  inferInstanceAs (Decidable (dateKey b ≤ dateKey a))

instance : IsTotal PRecord dateDesc :=
  ⟨fun a b => (le_total (dateKey b) (dateKey a)).imp id id⟩

instance : IsTrans PRecord dateDesc :=
  ⟨fun _ _ _ hab hbc => le_trans hbc hab⟩

/-- Embedding of `sort_data` (`app.py:155-157`):
`df.sort_values("date_online", ascending=False)` orders by online date
descending with missing dates last (`na_position='last'`); the source's
quicksort leaves the order of ties unspecified, so the model uses a sort
with the same ordering guarantees. -/
def sortData (df : List PRecord) : List PRecord :=
  df.insertionSort dateDesc

/-- `ITEMS_PER_PAGE` (`app.py:10`). -/
def ITEMS_PER_PAGE : Nat := 9

/-- Embedding of `total_pages` (`app.py:197`):
`max((total_items - 1) // ITEMS_PER_PAGE + 1, 1)`.  Python `//` is floor
division; on `Int` with the positive divisor `9`, Lean's `/` (Euclidean
division) computes the same quotient. -/
def totalPages (n : Nat) : Int :=
  max (((n : Int) - 1) / 9 + 1) 1

/-- Embedding of the slice `sorted_df.iloc[start_idx:end_idx]`
(`app.py:209-211`) for 1-based page `p`. -/
def pagedSlice (p : Nat) (l : List PRecord) : List PRecord :=
  (l.drop ((p - 1) * ITEMS_PER_PAGE)).take ITEMS_PER_PAGE

/-- A pagination interaction: one click on an enabled button. -/
inductive PageEv where
  | next : PageEv
  | prev : PageEv

/-- One Streamlit interaction step on the page index (`app.py:159-206`):
`Previous` is rendered disabled when `page <= 1` and `Next` when
`page >= total_pages`, so a click moves the index only when the
corresponding guard allows it; nothing else ever changes the index. -/
def pageStep (p : Nat) (n : Nat) : PageEv → Nat
  | .next => if (p : Int) < totalPages n then p + 1 else p
  | .prev => if 1 < p then p - 1 else p

/-- First record of the specification's filtering example. -/
def plantA : PRecord := ⟨"Plant A", "France", "Operational", "PEM", some 3⟩

/-- Second record of the specification's filtering example. -/
def plantB : PRecord := ⟨"Plant B", "Germany", "Concept", "ALK", some 5⟩

/-! ## Calendar arithmetic lemmas -/

theorem monthLength_pos (y m : Nat) : 1 ≤ monthLength y m := by
  unfold monthLength; split_ifs <;> omega

theorem daysBeforeMonth_twelve (y : Nat) :
    daysBeforeMonth y 12 + 31 = daysInYear y := by
  cases hy : isLeap y <;>
    simp [show (12:Nat) = 11+1 from rfl, show (11:Nat) = 10+1 from rfl,
      show (10:Nat) = 9+1 from rfl, show (9:Nat) = 8+1 from rfl,
      show (8:Nat) = 7+1 from rfl, show (7:Nat) = 6+1 from rfl,
      show (6:Nat) = 5+1 from rfl, show (5:Nat) = 4+1 from rfl,
      show (4:Nat) = 3+1 from rfl, show (3:Nat) = 2+1 from rfl,
      show (2:Nat) = 1+1 from rfl,
      daysBeforeMonth, monthLength, daysInYear, hy]

set_option maxHeartbeats 1600000 in
theorem daysBeforeYear_succ (y : Nat) (h : 1 ≤ y) :
    daysBeforeYear (y + 1) = daysBeforeYear y + daysInYear y := by
  obtain ⟨a, rfl⟩ : ∃ a, y = a + 1 := ⟨y - 1, by omega⟩
  cases hL : isLeap (a + 1)
  · have hd : daysInYear (a + 1) = 365 := by unfold daysInYear; rw [hL]; rfl
    simp [isLeap] at hL
    unfold daysBeforeYear
    rw [hd]
    clear hd
    simp only [Nat.add_sub_cancel]
    by_cases h4 : (a + 1) % 4 = 0
    · obtain ⟨h100, h400⟩ := hL h4
      omega
    · omega
  · have hd : daysInYear (a + 1) = 366 := by unfold daysInYear; rw [hL]; rfl
    simp [isLeap] at hL
    unfold daysBeforeYear
    rw [hd]
    clear hd
    simp only [Nat.add_sub_cancel]
    obtain ⟨h4, h2⟩ := hL
    rcases h2 with h100 | h400
    · omega
    · omega

theorem nextDay_valid {d : Date} (h : ValidDate d) : ValidDate (nextDay d) := by
  obtain ⟨y, m, day⟩ := d
  obtain ⟨hy, hm1, hm2, hd1, hd2⟩ := h
  have A := monthLength_pos y m
  have B := monthLength_pos y (m + 1)
  have C := monthLength_pos (y + 1) 1
  unfold nextDay
  split_ifs with h1 h2 <;> (unfold ValidDate at *; dsimp only at *; omega)

theorem toOrdinal_nextDay {d : Date} (h : ValidDate d) :
    toOrdinal (nextDay d) = toOrdinal d + 1 := by
  obtain ⟨y, m, day⟩ := d
  obtain ⟨hy, hm1, hm2, hd1, hd2⟩ := h
  dsimp only at *
  unfold nextDay
  split_ifs with h1 h2 <;> dsimp only at *
  · dsimp only [toOrdinal]; omega
  · dsimp only [toOrdinal, daysBeforeMonth]
    rw [if_neg (by omega : ¬(m = 0))]
    omega
  · have hm : m = 12 := by omega
    have hml : monthLength y 12 = 31 := by simp [monthLength]
    subst hm
    have hday : day = 31 := by omega
    subst hday
    dsimp only [toOrdinal]
    have hsucc := daysBeforeYear_succ y hy
    have h12 := daysBeforeMonth_twelve y
    have hdb1 : daysBeforeMonth (y + 1) 1 = 0 := rfl
    omega

theorem addDays_ordinal {d : Date} (h : ValidDate d) (n : Nat) :
    toOrdinal (addDays d n) = toOrdinal d + n ∧ ValidDate (addDays d n) := by
  induction n generalizing d with
  | zero => exact ⟨rfl, h⟩
  | succ n ih =>
    have h' := nextDay_valid h
    have hrec := ih h'
    unfold addDays
    refine ⟨?_, hrec.2⟩
    rw [hrec.1, toOrdinal_nextDay h]
    omega

theorem excelEpoch_valid : ValidDate excelEpoch := by decide

/-! ## Date conversion (claim C3, and support for C4) -/

theorem parseIso_valid {s : String} {d : Date} (h : parseIso s = some d) :
    ValidDate d := by
  unfold parseIso at h
  split at h
  · split at h
    · dsimp only at h
      split at h
      · rename_i hguard
        simp only [Option.some.injEq] at h
        subst h
        simp only [Bool.and_eq_true, decide_eq_true_eq] at hguard
        exact hguard.1.1
      · exact Option.noConfusion h
    · exact Option.noConfusion h
  · exact Option.noConfusion h

theorem excelDateConverter_range (c : Cell) :
    (∃ d, excelDateConverter c = .date d ∧ ValidDate d) ∨
      excelDateConverter c = .pyNone := by
  cases c with
  | nan => exact Or.inr rfl
  | pyNone => exact Or.inr rfl
  | floatVal q => exact Or.inr rfl
  | intVal n =>
    by_cases h : toOrdinal excelEpoch + n ≤ tsMaxOrd
    · refine Or.inl ⟨addDays excelEpoch n, ?_, (addDays_ordinal excelEpoch_valid n).2⟩
      simp only [excelDateConverter]
      rw [if_pos h]
    · refine Or.inr ?_
      simp only [excelDateConverter]
      rw [if_neg h]
  | text s =>
    cases hp : parseIso s with
    | none => exact Or.inr (by simp only [excelDateConverter]; rw [hp])
    | some d =>
      exact Or.inl ⟨d, by simp only [excelDateConverter]; rw [hp], parseIso_valid hp⟩
  | date d0 =>
    cases hp : parseIso (isoDateStr d0) with
    | none => exact Or.inr (by simp only [excelDateConverter]; rw [hp])
    | some d =>
      exact Or.inl ⟨d, by simp only [excelDateConverter]; rw [hp], parseIso_valid hp⟩

set_option maxRecDepth 4000 in
/-- C3 (counterexample): the date converter does not return a calendar date
for every numeric cell.  At serial `140000` the target date lies beyond the
`pandas.Timestamp` range, the `DateOffset` addition raises
`OutOfBoundsDatetime`, and the converter's exception handler returns
`None` — not the corresponding calendar date (which would be in 2283). -/
theorem excel_serial_overflow_gives_null :
    excelDateConverter (.intVal 140000) = .pyNone ∧
    tsMaxOrd < toOrdinal excelEpoch + 140000 := by decide

set_option maxRecDepth 4000 in
/-- C3 (amended): for every numeric cell whose serial keeps the target date
inside the `pandas.Timestamp` range (on or before 2262-04-11), the converter
interprets it as an Excel serial date with epoch 1899-12-30 and returns the
calendar date lying exactly `n` days after the epoch; in particular serial
`0` converts to 1899-12-30 and serial `1` to 1899-12-31.  Serials beyond
the range yield null. -/
theorem excel_serial_to_date (n : Nat)
    (h : toOrdinal excelEpoch + n ≤ tsMaxOrd) :
    excelDateConverter (.intVal n) = .date (addDays excelEpoch n) ∧
    toOrdinal (addDays excelEpoch n) = toOrdinal excelEpoch + n ∧
    ValidDate (addDays excelEpoch n) ∧
    excelDateConverter (.intVal 0) = .date ⟨1899, 12, 30⟩ ∧
    excelDateConverter (.intVal 1) = .date ⟨1899, 12, 31⟩ := by
  refine ⟨?_, (addDays_ordinal excelEpoch_valid n).1,
    (addDays_ordinal excelEpoch_valid n).2, by decide, by decide⟩
  simp only [excelDateConverter]
  rw [if_pos h]

set_option maxRecDepth 4000 in
/-- Witness for C3's amended theorem at serial `1`. -/
theorem excel_serial_to_date_witness :
    toOrdinal excelEpoch + 1 ≤ tsMaxOrd ∧
    excelDateConverter (.intVal 1) = .date (addDays excelEpoch 1) :=
  ⟨by decide, (excel_serial_to_date 1 (by decide)).1⟩

/-! ## Pipeline propagation lemmas -/

theorem mapCol_cells {p : String → Bool} {f : Cell → Cell} {rows : List Row}
    {row : Row} (hrow : row ∈ mapCol p f rows) {nc : String × Cell}
    (hnc : nc ∈ row) :
    ∃ row₀ ∈ rows, ∃ nc₀ ∈ row₀, nc.1 = nc₀.1 ∧
      nc.2 = if p nc₀.1 then f nc₀.2 else nc₀.2 := by
  unfold mapCol at hrow
  obtain ⟨row₀, hr₀, rfl⟩ := List.mem_map.mp hrow
  obtain ⟨nc₀, hnc₀, rfl⟩ := List.mem_map.mp hnc
  refine ⟨row₀, hr₀, nc₀, hnc₀, ?_, ?_⟩ <;> split <;> rfl

theorem keepFirstBy_mem {key : Row → Option Cell} :
    ∀ {rows : List Row} {seen : List (Option Cell)} {r : Row},
      r ∈ keepFirstBy key rows seen → r ∈ rows := by
  intro rows
  induction rows with
  | nil => intro seen r h; exact absurd h (List.not_mem_nil r)
  | cons a t ih =>
    intro seen r h
    simp only [keepFirstBy] at h
    split_ifs at h with hs
    · exact List.mem_cons_of_mem a (ih h)
    · rcases List.mem_cons.mp h with rfl | h'
      · exact List.mem_cons.mpr (Or.inl rfl)
      · exact List.mem_cons_of_mem _ (ih h')

theorem dropDuplicatesRef_mem {rows : List Row} {r : Row}
    (h : r ∈ dropDuplicatesRef rows) : r ∈ rows := by
  unfold dropDuplicatesRef at h
  split_ifs at h
  · exact h
  · exact keepFirstBy_mem h

theorem cleanNumericCell_range (c : Cell) :
    (∃ q, cleanNumericCell c = .floatVal q) ∨ cleanNumericCell c = .nan := by
  unfold cleanNumericCell
  cases cleanNumeric (cellStr c) with
  | none => exact Or.inr rfl
  | some q => exact Or.inl ⟨q, rfl⟩

/-! ## Claims C1, C6: what the pipeline does to missing values -/

set_option maxRecDepth 4000 in
/-- C1: the claim that a row whose identifier cell is missing is dropped
fails on the code.  Line 80 (`astype(str)`) runs before line 81 (`dropna`),
so a missing identifier has already become the string `"nan"` when `dropna`
looks for nulls, and the row is kept — contradicting both the claim and the
code's own comment ("drop rows missing an ID").  On a one-row table with a
missing identifier, the cleaned output keeps the row with `project_id`
equal to the string `"nan"`. -/
theorem missing_ref_row_is_kept :
    cleanIeaData [[(refCol, Cell.nan)]] = [[(refCol, Cell.text "nan")]] := by
  decide

set_option maxRecDepth 4000 in
/-- C6: the claim that a missing value in a text column stays null in the
pipeline's cleaned output fails on the code.  Lines 98-100 run
`astype(str)` over every `object`-typed column, which turns `NaN` into the
string `"nan"`; the presentation layer's `fillna("N/A")` (`app.py:116`)
then never fires because the value is no longer null. -/
theorem missing_text_becomes_nan_string :
    cleanIeaData
        [[(refCol, Cell.text "R1"), ("DATABASE_Technology", Cell.text "Electrolysis")],
         [(refCol, Cell.text "R2"), ("DATABASE_Technology", Cell.nan)]]
      = [[(refCol, Cell.text "R1"), ("DATABASE_Technology", Cell.text "Electrolysis")],
         [(refCol, Cell.text "R2"), ("DATABASE_Technology", Cell.text "nan")]] ∧
    fillnaNA (Cell.text "nan") = Cell.text "nan" ∧
    Cell.text "nan" ≠ Cell.nan := by
  refine ⟨by decide, by decide, by decide⟩

/-! ## Claim C2: keep-first deduplication -/

theorem keepFirstBy_filter (key : Row → Option Cell) (k : Option Cell) :
    ∀ (rows : List Row) (seen : List (Option Cell)),
      (keepFirstBy key rows seen).filter (fun r => key r == k) =
        if k ∈ seen then [] else (rows.find? fun r => key r == k).toList := by
  intro rows
  induction rows with
  | nil =>
    intro seen
    simp [keepFirstBy]
  | cons a t ih =>
    intro seen
    simp only [keepFirstBy]
    by_cases hs : key a ∈ seen
    · rw [if_pos hs, ih seen]
      by_cases hk : k ∈ seen
      · rw [if_pos hk, if_pos hk]
      · rw [if_neg hk, if_neg hk]
        have hne : ¬(key a == k) = true := by
          intro he
          exact hk ((beq_iff_eq.mp he) ▸ hs)
        rw [@List.find?_cons_of_neg _ (fun r => key r == k) a t hne]
    · rw [if_neg hs, List.filter_cons]
      by_cases hak : (key a == k) = true
      · have hk : k ∉ seen := fun hmem => hs ((beq_iff_eq.mp hak) ▸ hmem)
        rw [if_pos hak, ih (key a :: seen),
          if_pos (List.mem_cons.mpr (Or.inl (beq_iff_eq.mp hak).symm)),
          if_neg hk, @List.find?_cons_of_pos _ (fun r => key r == k) a t hak]
        rfl
      · rw [if_neg hak, ih (key a :: seen),
          @List.find?_cons_of_neg _ (fun r => key r == k) a t hak]
        by_cases hk : k ∈ seen
        · rw [if_pos (List.mem_cons.mpr (Or.inr hk)), if_pos hk]
        · have : k ∉ key a :: seen := by
            intro hmem
            rcases List.mem_cons.mp hmem with he | hin
            · exact hak (he ▸ (beq_iff_eq.mpr rfl))
            · exact hk hin
          rw [if_neg this, if_neg hk]

theorem keepFirstBy_keys_nodup (key : Row → Option Cell) :
    ∀ (rows : List Row) (seen : List (Option Cell)),
      ((keepFirstBy key rows seen).map key).Nodup ∧
        ∀ r ∈ keepFirstBy key rows seen, key r ∉ seen := by
  intro rows
  induction rows with
  | nil => intro seen; exact ⟨List.nodup_nil, by simp [keepFirstBy]⟩
  | cons a t ih =>
    intro seen
    simp only [keepFirstBy]
    by_cases hs : key a ∈ seen
    · rw [if_pos hs]; exact ih seen
    · rw [if_neg hs]
      obtain ⟨hnd, hnin⟩ := ih (key a :: seen)
      constructor
      · simp only [List.map_cons, List.nodup_cons]
        refine ⟨?_, hnd⟩
        intro hmem
        obtain ⟨r, hr, he⟩ := List.mem_map.mp hmem
        exact hnin r hr (he ▸ List.mem_cons.mpr (Or.inl rfl))
      · intro r hr
        rcases List.mem_cons.mp hr with rfl | hr'
        · exact hs
        · intro hrs
          exact hnin r hr' (List.mem_cons.mpr (Or.inr hrs))

theorem filter_eq_find_toList_of_nodup (key : Row → Option Cell) (k : Option Cell) :
    ∀ rows : List Row, ((rows.map key)).Nodup →
      rows.filter (fun r => key r == k) = (rows.find? fun r => key r == k).toList := by
  intro rows
  induction rows with
  | nil => intro _; simp
  | cons a t ih =>
    intro hnd
    simp only [List.map_cons, List.nodup_cons] at hnd
    obtain ⟨hna, hnd⟩ := hnd
    rw [List.filter_cons]
    by_cases ha : (key a == k) = true
    · rw [if_pos ha, @List.find?_cons_of_pos _ (fun r => key r == k) a t ha]
      have hkey : key a = k := beq_iff_eq.mp ha
      have hnil : t.filter (fun r => key r == k) = [] := by
        rw [List.filter_eq_nil_iff]
        intro r hr hkr
        exact hna (List.mem_map.mpr ⟨r, hr, (beq_iff_eq.mp hkr ▸ hkey.symm ▸ rfl : key r = key a)⟩)
      rw [hnil]
      rfl
    · rw [if_neg ha, @List.find?_cons_of_neg _ (fun r => key r == k) a t ha]
      exact ih hnd

/-- C2: after deduplication the identifier values are pairwise distinct,
and for every identifier value `k` the rows retained for `k` are exactly
the first row with that identifier in original order; on identifiers
`["A", "A", "B"]` with differing other fields, the output is the first
`"A"` row followed by the `"B"` row. -/
theorem dedup_unique_keeps_first (rows : List Row) (k : Option Cell) :
    ((dropDuplicatesRef rows).map refKey).Nodup ∧
    (dropDuplicatesRef rows).filter (fun r => refKey r == k) =
      (rows.find? fun r => refKey r == k).toList ∧
    dropDuplicatesRef
        [[(refCol, .text "A"), ("DATABASE_Country", .text "X")],
         [(refCol, .text "A"), ("DATABASE_Country", .text "Y")],
         [(refCol, .text "B"), ("DATABASE_Country", .text "Z")]] =
      [[(refCol, .text "A"), ("DATABASE_Country", .text "X")],
       [(refCol, .text "B"), ("DATABASE_Country", .text "Z")]] := by
  refine ⟨?_, ?_, by decide⟩
  · unfold dropDuplicatesRef
    split_ifs with hnd
    · exact hnd
    · exact (keepFirstBy_keys_nodup refKey rows []).1
  · unfold dropDuplicatesRef
    split_ifs with hnd
    · exact filter_eq_find_toList_of_nodup refKey k rows hnd
    · rw [keepFirstBy_filter refKey k rows [], if_neg (List.not_mem_nil k)]

/-! ## Claim C4: date columns hold valid dates or nulls -/

/-- C4: in the cleaned output, every cell of a column whose name contains
`"date"` (case-insensitively) is a valid calendar date, or null, or the
final `astype(str)` rendering `"None"` of a null — never a raw Excel
serial and never an unparsed input string.  The per-cell coercion itself
(`excelDateConverter_range`) is total: a valid date or `None`, with every
failure caught inside the converter. -/
theorem date_columns_date_or_null (rows : List Row) (row : Row)
    (hrow : row ∈ cleanIeaData rows) (nc : String × Cell) (hnc : nc ∈ row)
    (hd : isDateCol nc.1 = true) :
    (∃ d, nc.2 = .date d ∧ ValidDate d) ∨ nc.2 = .pyNone ∨ nc.2 = .text "None" := by
  dsimp only [cleanIeaData, astypeObjectCols] at hrow
  obtain ⟨row₅, hr₅, nc₅, hnc₅, hname, hcell⟩ := mapCol_cells hrow hnc
  obtain ⟨row₄, hr₄, nc₄, hnc₄, hname₄, hcell₄⟩ :=
    mapCol_cells (dropDuplicatesRef_mem hr₅) hnc₅
  rw [hname, hname₄] at hd
  rw [if_pos hd] at hcell₄
  rcases excelDateConverter_range nc₄.2 with ⟨d, hdc, hv⟩ | hdc
  · rw [hdc] at hcell₄
    rw [hcell₄] at hcell
    left
    refine ⟨d, ?_, hv⟩
    rw [hcell]
    split <;> rfl
  · rw [hdc] at hcell₄
    rw [hcell₄] at hcell
    right
    rw [hcell]
    split
    · right; rfl
    · left; rfl

set_option maxRecDepth 4000 in
/-- Witness for C4 on a one-row table whose date cell is the serial `1`. -/
theorem date_columns_date_or_null_witness :
    (∃ d, Cell.date ⟨1899, 12, 31⟩ = Cell.date d ∧ ValidDate d) ∨
      Cell.date ⟨1899, 12, 31⟩ = Cell.pyNone ∨
      Cell.date ⟨1899, 12, 31⟩ = Cell.text "None" :=
  date_columns_date_or_null
    [[(refCol, Cell.text "R"), ("DATABASE_Date online", Cell.intVal 1)]]
    [(refCol, Cell.text "R"), ("DATABASE_Date online", Cell.date ⟨1899, 12, 31⟩)]
    (by decide)
    ("DATABASE_Date online", Cell.date ⟨1899, 12, 31⟩)
    (by decide) (by decide)

/-! ## Claim C5: numeric columns hold floats or NaN -/

theorem numeric_inv_r5 (rows2 : List Row) (n : String)
    (hnum : isNumericCol n = true) (hnd : isDateCol n = false) :
    ∀ row ∈ dropDuplicatesRef (mapCol isDateCol excelDateConverter
        (mapCol isNumericCol cleanNumericCell rows2)),
      ∀ nc ∈ row, nc.1 = n → (∃ q, nc.2 = .floatVal q) ∨ nc.2 = .nan := by
  intro row hrow nc hnc hn
  obtain ⟨row₄, hr₄, nc₄, hnc₄, hname₄, hcell₄⟩ :=
    mapCol_cells (dropDuplicatesRef_mem hrow) hnc
  obtain ⟨row₃, hr₃, nc₃, hnc₃, hname₃, hcell₃⟩ := mapCol_cells hr₄ hnc₄
  rw [hn] at hname₄
  rw [← hname₄, hnd] at hcell₄
  rw [if_neg Bool.false_ne_true] at hcell₄
  rw [hcell₃] at hcell₄
  rw [← hname₃, ← hname₄, hnum] at hcell₄
  rw [if_pos rfl] at hcell₄
  rw [hcell₄]
  exact cleanNumericCell_range nc₃.2

theorem colIsObject_false_of_inv {rows5 : List Row} {n : String}
    (inv : ∀ row ∈ rows5, ∀ nc ∈ row, nc.1 = n →
      (∃ q, nc.2 = Cell.floatVal q) ∨ nc.2 = Cell.nan) :
    colIsObject rows5 n = false := by
  cases hc : colIsObject rows5 n
  · rfl
  · exfalso
    unfold colIsObject at hc
    rw [List.any_eq_true] at hc
    obtain ⟨row', hrow', hany⟩ := hc
    rw [List.any_eq_true] at hany
    obtain ⟨nc', hnc', hcond⟩ := hany
    rw [Bool.and_eq_true, beq_iff_eq] at hcond
    rcases inv row' hrow' nc' hnc' hcond.1 with ⟨q, hq⟩ | hq <;>
      simp [hq, isObjLike] at hcond

set_option maxRecDepth 4000 in
/-- C5 (counterexample): the claim fails for a column whose name contains a
numeric keyword and also `"date"`.  Such a column is numeric-cleaned and
then date-converted; the float value makes the `DateOffset` arithmetic
raise, the converter returns `None`, and the final `astype(str)` renders it
as the string `"None"` — so a numeric-designated column ends up holding a
string with non-numeric characters. -/
theorem numeric_date_column_is_stringified :
    cleanIeaData [[(refCol, Cell.text "R1"), ("Size date", Cell.text "2020-01-01")]]
      = [[(refCol, Cell.text "R1"), ("Size date", Cell.text "None")]] ∧
    isNumericCol "Size date" = true ∧ isDateCol "Size date" = true := by
  refine ⟨by decide, by decide, by decide⟩

/-- C5 (amended): for every column whose name contains `"capacity"` or
`"size"` (case-insensitively) and does not also contain `"date"`, every
value in the cleaned output is a finite float or NaN — never a string;
the investment field `DATABASE_Announced Size` is such a column. -/
theorem numeric_columns_float_or_nan (rows : List Row) (row : Row)
    (hrow : row ∈ cleanIeaData rows) (nc : String × Cell) (hnc : nc ∈ row)
    (hnum : isNumericCol nc.1 = true) (hnd : isDateCol nc.1 = false) :
    ((∃ q, nc.2 = .floatVal q) ∨ nc.2 = .nan) ∧
      isNumericCol "DATABASE_Announced Size" = true := by
  refine ⟨?_, by decide⟩
  dsimp only [cleanIeaData, astypeObjectCols] at hrow
  have inv := numeric_inv_r5 (dropnaRef (mapCol (· == refCol) astypeStrCell rows))
    nc.1 hnum hnd
  obtain ⟨row₅, hr₅, nc₅, hnc₅, hname, hcell⟩ := mapCol_cells hrow hnc
  have hobj := colIsObject_false_of_inv inv
  rw [← hname, hobj] at hcell
  rw [if_neg Bool.false_ne_true] at hcell
  rw [hcell]
  exact inv row₅ hr₅ nc₅ hnc₅ hname.symm

set_option maxRecDepth 4000 in
/-- Witness for C5's amended theorem on a one-row table with the investment
column holding the text `"100 MW"`, which cleans to the float `100`. -/
theorem numeric_columns_float_or_nan_witness :
    ((∃ q, Cell.floatVal 100 = Cell.floatVal q) ∨ Cell.floatVal 100 = Cell.nan) ∧
      isNumericCol "DATABASE_Announced Size" = true :=
  numeric_columns_float_or_nan
    [[(refCol, Cell.text "R"), ("DATABASE_Announced Size", Cell.text "100 MW")]]
    [(refCol, Cell.text "R"), ("DATABASE_Announced Size", Cell.floatVal 100)]
    (by decide)
    ("DATABASE_Announced Size", Cell.floatVal 100)
    (by decide) (by decide) (by decide)

/-! ## Claim C8: sort by online date descending, nulls last -/

/-- C8: the consumer's sort returns a permutation of its input in which,
for every pair of records in output order, either the later record has no
online date, or both have dates and the later one's date is not larger. -/
theorem sort_desc_nulls_last (df : List PRecord) :
    (sortData df).Perm df ∧
    (sortData df).Pairwise (fun a b =>
      b.date_online = none ∨
        ∃ x y, a.date_online = some x ∧ b.date_online = some y ∧ y ≤ x) := by
  constructor
  · exact List.perm_insertionSort dateDesc df
  · have hs := List.sorted_insertionSort dateDesc df
    refine hs.imp ?_
    intro a b hab
    cases hB : b.date_online with
    | none => exact Or.inl rfl
    | some y =>
      cases hA : a.date_online with
      | none =>
        exfalso
        simp only [dateDesc, dateKey, hA, hB] at hab
        exact absurd hab (WithBot.not_coe_le_bot y)
      | some x =>
        refine Or.inr ⟨x, y, rfl, rfl, ?_⟩
        simp only [dateDesc, dateKey, hA, hB] at hab
        exact_mod_cast hab

/-! ## Claim C9: pagination -/

/-- C9 (counterexample): the displayed page index is not clamped to
`[1, page count]`.  Starting on page 1 with 20 filtered records, two
clicks on the enabled `Next` button reach page 3; if the filter count then
shrinks to 5 the page count is 1, but the session page index stays 3. -/
theorem page_exceeds_count_after_shrink :
    pageStep (pageStep 1 20 .next) 20 .next = 3 ∧
    totalPages 5 = 1 ∧ ¬((3 : Int) ≤ totalPages 5) := by decide

/-- C9 (amended): the page size is 9; for `n ≥ 1` filtered records the page
count is `⌈n/9⌉` and it is always at least 1; page `p` shows exactly the
records at 0-based positions `(p-1)*9` through `min(p*9, n)-1`; a click on
`Previous`/`Next` (disabled outside `1 < p` / `p < page count`) keeps the
index inside `[1, page count]` as long as the filtered count is unchanged;
with 20 records, page 1 shows records 1-9, page 3 shows records 19-20, and
the page count is 3.  The index is not re-clamped when the count shrinks
between interactions. -/
theorem pagination_props :
    (∀ n : Nat, 1 ≤ n → totalPages n = ((n + 8) / 9 : Nat)) ∧
    (∀ n : Nat, 1 ≤ totalPages n) ∧
    (∀ (l : List PRecord) (p i : Nat), 1 ≤ p →
      ((pagedSlice p l).length =
          min ITEMS_PER_PAGE (l.length - (p - 1) * ITEMS_PER_PAGE) ∧
        (pagedSlice p l)[i]? =
          if i < ITEMS_PER_PAGE then l[(p - 1) * ITEMS_PER_PAGE + i]? else none)) ∧
    (∀ (p n : Nat) (e : PageEv), 1 ≤ p → (p : Int) ≤ totalPages n →
      1 ≤ pageStep p n e ∧ (pageStep p n e : Int) ≤ totalPages n) ∧
    (∀ l : List PRecord, l.length = 20 →
      totalPages 20 = 3 ∧ pagedSlice 1 l = l.take 9 ∧ pagedSlice 3 l = l.drop 18) := by
  refine ⟨?_, ?_, ?_, ?_, ?_⟩
  · intro n h
    unfold totalPages
    omega
  · intro n
    unfold totalPages
    omega
  · intro l p i hp
    constructor
    · simp [pagedSlice, List.length_take, List.length_drop, Nat.min_comm]
    · simp [pagedSlice, List.getElem?_take, List.getElem?_drop]
  · intro p n e h1 h2
    cases e <;> simp only [pageStep] <;> split_ifs <;> constructor <;> omega
  · intro l hl
    refine ⟨by decide, ?_, ?_⟩
    · simp [pagedSlice, ITEMS_PER_PAGE]
    · unfold pagedSlice
      rw [List.take_of_length_le (by simp [hl, ITEMS_PER_PAGE])]
      norm_num [ITEMS_PER_PAGE]

/-- Witness for C9's amended theorem at `n = 20` and a concrete list of 20
records. -/
theorem pagination_props_witness :
    totalPages 20 = ((20 + 8) / 9 : Nat) ∧
    pagedSlice 3 ((List.range 20).map fun i => ⟨toString i, "", "", "", none⟩) =
      ((List.range 20).map fun i => (⟨toString i, "", "", "", none⟩ : PRecord)).drop 18 :=
  ⟨pagination_props.1 20 (by decide),
   (pagination_props.2.2.2.2 ((List.range 20).map fun i =>
      (⟨toString i, "", "", "", none⟩ : PRecord)) (by decide)).2.2⟩

/-! ## Claim C10: behavior of the numeric cleaner -/

theorem parseFloat_nonneg {cs : List Char} {q : ℚ} (h : parseFloat cs = some q) :
    0 ≤ q := by
  unfold parseFloat at h
  split at h
  · split_ifs at h
    all_goals first
      | exact Option.noConfusion h
      | (simp only [Option.some.injEq] at h; subst h; positivity)
  · split_ifs at h
    all_goals first
      | exact Option.noConfusion h
      | (simp only [Option.some.injEq] at h; subst h; positivity)
  · exact Option.noConfusion h

/-- C10: whenever the numeric cleaner returns a number it is non-negative;
minus signs are stripped, so prepending `"-"` never changes the result (in
particular `"-5"` yields `5.0`); digits of separate numbers in one cell are
merged (`"3 x 5"` yields `35.0`). -/
theorem clean_numeric_props :
    (∀ (s : String) (q : ℚ), cleanNumeric s = some q → 0 ≤ q) ∧
    (∀ s : String, cleanNumeric ("-" ++ s) = cleanNumeric s) ∧
    cleanNumeric "-5" = some 5 ∧ cleanNumeric "3 x 5" = some 35 := by
  refine ⟨?_, ?_, by decide, by decide⟩
  · intro s q h
    exact parseFloat_nonneg h
  · intro s
    rfl

/-- Witness for C10 at the concrete input `"-7x"`. -/
theorem clean_numeric_props_witness :
    cleanNumeric "-7x" = some 7 ∧ (0 : ℚ) ≤ 7 :=
  ⟨by decide, clean_numeric_props.1 "-7x" 7 (by decide)⟩

/-! ## Claim C7: consumer search and filters -/

theorem anyCongr {α : Type} {p q : α → Bool} :
    ∀ {l : List α}, (∀ a ∈ l, p a = q a) → l.any p = l.any q := by
  intro l
  induction l with
  | nil => intro _; rfl
  | cons a t ih =>
    intro h
    simp only [List.any_cons]
    rw [h a (List.mem_cons.mpr (Or.inl rfl)),
      ih fun b hb => h b (List.mem_cons.mpr (Or.inr hb))]

theorem rxMatchHere_no_dot :
    ∀ (ts cs : List Char), (∀ t ∈ ts, t ≠ '.') →
      rxMatchHere ts cs = (ts.map Char.toLower).isPrefixOf (cs.map Char.toLower) := by
  intro ts
  induction ts with
  | nil => intro cs _; cases cs <;> rfl
  | cons t ts ih =>
    intro cs hno
    cases cs with
    | nil => rfl
    | cons c cs =>
      simp only [rxMatchHere, rxTokenMatch, List.map_cons, List.isPrefixOf]
      have ht : (t == '.') = false := by
        rw [beq_eq_false_iff_ne]
        exact hno t (List.mem_cons.mpr (Or.inl rfl))
      rw [ht, Bool.false_or,
        ih cs fun t' ht' => hno t' (List.mem_cons.mpr (Or.inr ht'))]

theorem strContainsPy_eq_literal (pat s : String)
    (h : ∀ c ∈ pat.toList, c ∉ reSpecials) :
    strContainsPy pat s = literalSubstrCI pat s := by
  have hdot : ∀ t ∈ pat.toList, t ≠ '.' := by
    intro t ht he
    exact h t ht (he ▸ (by decide : ('.') ∈ reSpecials))
  have hfrag : inRxFragment pat = true := by
    unfold inRxFragment
    rw [List.all_eq_true]
    intro c hc
    cases hcont : reSpecials.contains c
    · simp [hcont]
    · exact absurd (List.mem_of_elem_eq_true hcont) (h c hc)
  unfold strContainsPy literalSubstrCI hasSubstr lowerChars
  rw [if_pos hfrag, List.map_tails, List.any_map]
  apply anyCongr
  intro suf _
  exact rxMatchHere_no_dot pat.toList suf hdot

theorem filters_foldl_eq_filter (filters : List FieldFilter) :
    ∀ acc : List PRecord,
      filters.foldl (fun acc fv => if fv.2.isEmpty then acc
          else acc.filter fun r => fv.2.contains (fv.1 r)) acc =
        acc.filter fun r =>
          filters.all fun fv => fv.2.isEmpty || fv.2.contains (fv.1 r) := by
  induction filters with
  | nil =>
    intro acc
    simp
  | cons fv fs ih =>
    intro acc
    simp only [List.foldl_cons]
    by_cases he : fv.2.isEmpty
    · rw [if_pos he, ih acc]
      apply List.filter_congr
      intro r _
      simp [he]
    · rw [if_neg he, ih (acc.filter _), List.filter_filter]
      apply List.filter_congr
      intro r _
      simp only [List.all_cons]
      rw [Bool.and_comm]
      simp [Bool.of_not_eq_true he]

/-- C7 (counterexample): the search query is not matched as a literal
substring.  `Series.str.contains` treats the query as a regular expression
(`regex=True` default), so the query `"."` matches every record with a
non-empty name even though no name or country contains a literal
period. -/
theorem search_dot_is_regex_not_literal :
    applyFilters [plantA] "." [] = [plantA] ∧
    literalSubstrCI "." "Plant A" = false ∧
    literalSubstrCI "." "France" = false := by
  refine ⟨by decide, by decide, by decide⟩

/-- C7 (amended): for a search query containing no regex metacharacters,
`apply_filters` retains exactly the records whose name or country contains
the query as a case-insensitive substring (OR over the two fields), and
each non-empty multi-value filter retains exactly the records whose field
value is among the selected values, filters ANDed, an empty filter and an
empty query imposing no restriction; on the specification's two-record
example with query `"plant a"` exactly the first record is returned.
Queries are interpreted as regular expressions in general. -/
theorem apply_filters_search_and_filters (df : List PRecord) (q : String)
    (filters : List FieldFilter) (h : ∀ c ∈ q.toList, c ∉ reSpecials) :
    (applyFilters df q filters =
      df.filter fun r =>
        (q == "" || literalSubstrCI q r.project_name || literalSubstrCI q r.country) &&
          (filters.all fun fv => fv.2.isEmpty || fv.2.contains (fv.1 r))) ∧
    applyFilters [plantA, plantB] "plant a" [] = [plantA] := by
  refine ⟨?_, by decide⟩
  unfold applyFilters
  rw [filters_foldl_eq_filter]
  by_cases hq : (q == "") = true
  · rw [if_pos hq]
    apply List.filter_congr
    intro r _
    rw [hq, Bool.true_or, Bool.true_or, Bool.true_and]
  · rw [if_neg hq, List.filter_filter]
    apply List.filter_congr
    intro r _
    rw [Bool.and_comm]
    rw [Bool.of_not_eq_true hq, Bool.false_or,
      strContainsPy_eq_literal q r.project_name h,
      strContainsPy_eq_literal q r.country h]

/-- Witness for C7's amended theorem on the specification's two records and
the query `"plant a"`. -/
theorem apply_filters_search_witness :
    applyFilters [plantA, plantB] "plant a" [] =
      [plantA, plantB].filter (fun r =>
        (("plant a" : String) == "" || literalSubstrCI "plant a" r.project_name ||
          literalSubstrCI "plant a" r.country) &&
        (([] : List FieldFilter).all fun fv => fv.2.isEmpty || fv.2.contains (fv.1 r))) :=
  (apply_filters_search_and_filters [plantA, plantB] "plant a" [] (by decide)).1

end EnergyTool
